import Mathlib

/-!
Verification development for the football count-prediction pipeline
(temporal factor engineering, feature scaling, count-model scoring and
data fetching).  Python sources are embedded shallowly: pandas columns
become `List (Option ℚ)` (a `none` entry is a NaN), tables become lists
of record structures, and exact real arithmetic replaces floating point.
-/

set_option maxHeartbeats 1000000
set_option maxRecDepth 4000

namespace FootballAI

/-! ## Arithmetic helpers shared by all embeddings -/

/-- Arithmetic mean of a list of rationals (pandas `Series.mean` on the
defined entries). -/
def qMean (xs : List ℚ) : ℚ := xs.sum / xs.length

/-- pandas mean over a column with NaNs: NaN entries are skipped, and the
result is NaN when no entry is defined. -/
def meanOpt (xs : List (Option ℚ)) : Option ℚ :=
  let vals := xs.filterMap id
  if vals.isEmpty then none else some (qMean vals)

/-- The last `n` elements of a list (pandas `DataFrame.tail(n)`). -/
def lastN (n : ℕ) (xs : List α) : List α := xs.drop (xs.length - n)

/-! ## C1 — player rolling factor (P-factor)

`player_factor_engineer.calculate_player_ma5_factors` and
`live_predictor_zip.calculate_ma5_factors` both compute, per player and
per metric,
`x.rolling(window=5, min_periods=1, closed='left').mean()`
after sorting that player's records by `match_datetime`.
-/

/-- One record of a single player's history: timestamp and the metric
value of that match (`none` = NaN, e.g. a scheduled-future placeholder). -/
structure PRec where
  dt : ℚ
  stat : Option ℚ
deriving DecidableEq

/-- pandas `rolling(window=5, min_periods=1, closed='left').mean()` at
row position `i` of a column: the window is the up-to-5 entries at
positions `i-5 .. i-1` (the current row excluded), NaNs in the window are
skipped, and the result is NaN when no entry of the window is defined. -/
def rollingClosedLeft5 (xs : List (Option ℚ)) (i : ℕ) : Option ℚ :=
  meanOpt ((xs.take i).drop (i - 5))

/-- The engineered P-factor of row `i` of one player's time-sorted
history (the `{metric}_MA5` column entry produced by the source). -/
def pfactorAt (h : List PRec) (i : ℕ) : Option ℚ :=
  rollingClosedLeft5 (h.map PRec.stat) i

/-- The whole `{metric}_MA5` column for one player. -/
def playerMA5Column (h : List PRec) : List (Option ℚ) :=
  (List.range h.length).map (pfactorAt h)

/-- Records of the history strictly earlier than timestamp `T`. -/
def priorRecords (h : List PRec) (T : ℚ) : List PRec :=
  h.filter (fun r => r.dt < T)

/-- Spec-side definition, following the claim's words: the trailing mean
of the stat over the up-to-5 of the player's records strictly earlier in
timestamp than `T`, undefined when there is no strictly earlier record. -/
def trailingMeanSpec (h : List PRec) (T : ℚ) : Option ℚ :=
  let prior := priorRecords h T
  if prior.isEmpty then none
  else meanOpt ((lastN 5 prior).map PRec.stat)

/-- Timestamps strictly increase along the history (one row per match,
time-sorted, no duplicate timestamps for the player). -/
def strictByTime (h : List PRec) : Prop :=
  h.Pairwise (fun a b => a.dt < b.dt)

instance (h : List PRec) : Decidable (strictByTime h) := by
  unfold strictByTime; infer_instance

theorem priorRecords_eq_take (h : List PRec) (hs : strictByTime h)
    (i : ℕ) (hi : i < h.length) :
    priorRecords h (h.get ⟨i, hi⟩).dt = h.take i := by
  induction h generalizing i with
  | nil => simp at hi
  | cons a t ih =>
    rw [strictByTime, List.pairwise_cons] at hs
    cases i with
    | zero =>
      simp only [List.get, List.take_zero]
      rw [priorRecords]
      apply List.filter_eq_nil_iff.mpr
      intro r hr
      simp only [decide_eq_true_eq, not_lt]
      rcases List.mem_cons.mp hr with hr | hr
      · exact le_of_eq (congrArg PRec.dt hr.symm)
      · exact le_of_lt (hs.1 r hr)
    | succ j =>
      have hj : j < t.length := Nat.lt_of_succ_lt_succ hi
      simp only [List.get, List.take_succ_cons]
      rw [priorRecords, List.filter_cons]
      have ha : a.dt < ((a :: t).get ⟨j + 1, hi⟩).dt := by
        simp only [List.get]
        exact hs.1 _ (List.get_mem t j hj)
      simp only [List.get] at ha ⊢
      rw [if_pos (by simpa using ha)]
      have := ih hs.2 j hj
      rw [priorRecords] at this
      rw [this]

theorem meanOpt_eq_none_iff (xs : List (Option ℚ)) :
    meanOpt xs = none ↔ xs.filterMap id = [] := by
  rcases hxs : xs.filterMap id with _ | ⟨a, t⟩ <;> simp [meanOpt, hxs]

/-- The trailing mean over the last up-to-5 records of a history
(the value the rolling window produces once positions are resolved). -/
def tailWindowMean (l : List PRec) : Option ℚ :=
  meanOpt ((lastN 5 l).map PRec.stat)

theorem pfactorAt_eq_tailWindow (h : List PRec) (i : ℕ) (hi : i ≤ h.length) :
    pfactorAt h i = tailWindowMean (h.take i) := by
  rw [pfactorAt, rollingClosedLeft5, tailWindowMean, lastN,
    List.length_take, Nat.min_eq_left hi]
  simp [List.map_take, List.map_drop]

theorem tailWindowMean_eq_none_iff (l : List PRec)
    (hdef : ∀ r ∈ l, (PRec.stat r).isSome) :
    tailWindowMean l = none ↔ l = [] := by
  rw [tailWindowMean, meanOpt_eq_none_iff, List.filterMap_map]
  constructor
  · intro hnil
    by_contra hne
    have hlast : lastN 5 l ≠ [] := by
      rw [lastN]
      intro hd
      rw [List.drop_eq_nil_iff] at hd
      have hpos : 0 < l.length := List.length_pos.mpr hne
      omega
    rcases List.exists_mem_of_ne_nil _ hlast with ⟨r, hr⟩
    have hrl : r ∈ l := by
      rw [lastN] at hr
      exact List.mem_of_mem_drop hr
    have hsome := hdef r hrl
    have hcontr := List.filterMap_eq_nil_iff.mp hnil r hr
    simp only [Function.comp, id] at hcontr
    rw [hcontr] at hsome
    simp at hsome
  · intro h0
    rw [h0]
    rfl

/-- C1: for every player and every row, the engineered P-factor equals the
trailing mean of that player's stat over the up-to-5 of the player's
records strictly earlier in timestamp (the current row excluded); it is
undefined exactly when the player has no strictly earlier record; and it
is a function of the strictly earlier records alone, so mutating any
record with timestamp at or after the row's leaves it unchanged (third
conjunct, where `h'` is any mutated history agreeing strictly before the
row's timestamp).  Hypotheses: each history is time-sorted with distinct
timestamps and the stat values of `h` are defined. -/
theorem C1_player_factor
    (h h' : List PRec) (hs : strictByTime h) (hs' : strictByTime h')
    (hdef : ∀ r ∈ h, (PRec.stat r).isSome)
    (i j : ℕ) (hi : i < h.length) (hj : j < h'.length)
    (hT : (h.get ⟨i, hi⟩).dt = (h'.get ⟨j, hj⟩).dt)
    (hagree : priorRecords h (h.get ⟨i, hi⟩).dt
      = priorRecords h' (h.get ⟨i, hi⟩).dt) :
    pfactorAt h i = trailingMeanSpec h (h.get ⟨i, hi⟩).dt
    ∧ (pfactorAt h i = none ↔ priorRecords h (h.get ⟨i, hi⟩).dt = [])
    ∧ pfactorAt h i = pfactorAt h' j := by
  have hTake : priorRecords h (h.get ⟨i, hi⟩).dt = h.take i :=
    priorRecords_eq_take h hs i hi
  have hTake' : priorRecords h' (h.get ⟨i, hi⟩).dt = h'.take j := by
    rw [hT]
    exact priorRecords_eq_take h' hs' j hj
  have hpf : pfactorAt h i = tailWindowMean (h.take i) :=
    pfactorAt_eq_tailWindow h i (le_of_lt hi)
  have hpf' : pfactorAt h' j = tailWindowMean (h'.take j) :=
    pfactorAt_eq_tailWindow h' j (le_of_lt hj)
  have hdefTake : ∀ r ∈ h.take i, (PRec.stat r).isSome := fun r hr =>
    hdef r (List.mem_of_mem_take hr)
  refine ⟨?_, ?_, ?_⟩
  · rw [hpf, trailingMeanSpec, hTake]
    by_cases h0 : (h.take i).isEmpty
    · rw [if_pos h0]
      rw [List.isEmpty_iff] at h0
      rw [h0]
      rfl
    · rw [if_neg h0]
      rfl
  · rw [hpf, hTake]
    rw [tailWindowMean_eq_none_iff _ hdefTake]
  · rw [hpf, hpf']
    rw [← hTake, ← hTake', hagree]

/-- Witness for C1 at a concrete three-match history: the P-factor of the
third row is the mean of the first two stats, and mutating the stat of the
record at the row's own timestamp does not change it. -/
theorem C1_player_factor_witness :
    pfactorAt [⟨1, some 2⟩, ⟨2, some 4⟩, ⟨3, some 6⟩] 2
      = trailingMeanSpec [⟨1, some 2⟩, ⟨2, some 4⟩, ⟨3, some 6⟩] 3
    ∧ (pfactorAt [⟨1, some 2⟩, ⟨2, some 4⟩, ⟨3, some 6⟩] 2 = none
        ↔ priorRecords [⟨1, some 2⟩, ⟨2, some 4⟩, ⟨3, some 6⟩] 3 = [])
    ∧ pfactorAt [⟨1, some 2⟩, ⟨2, some 4⟩, ⟨3, some 6⟩] 2
      = pfactorAt [⟨1, some 2⟩, ⟨2, some 4⟩, ⟨3, some 100⟩] 2 :=
  C1_player_factor
    [⟨1, some 2⟩, ⟨2, some 4⟩, ⟨3, some 6⟩]
    [⟨1, some 2⟩, ⟨2, some 4⟩, ⟨3, some 100⟩]
    (by decide) (by decide) (by decide)
    2 2 (by decide) (by decide) (by decide) (by decide)

/-! ## C2 — opponent factor (O-factor)

`live_predictor_zip.calculate_ma5_factors`, opponent loop: for every row
of the merged player-level table, collect the rows whose `team_name` is
the row's opponent and whose `match_datetime` is strictly earlier, take
the mean of `sot_conceded` over the `tail(5)` of that history (over all
of it when fewer than 5 rows exist), and afterwards fill the missing
entries of the resulting column with the league-wide mean of the defined
`sot_conceded` entries.
-/

/-- One row of the merged player-level table, with the fields the
opponent-factor computation reads.  `conceded` is the `sot_conceded`
value joined onto the row by `(match_date, team_name)`. -/
structure ORow where
  team : String
  home : String
  away : String
  side : String
  dt : ℚ
  conceded : Option ℚ
deriving DecidableEq

/-- `np.where(team_side == 'home', away_team, home_team)`. -/
def opponentTeam (r : ORow) : String :=
  if r.side = "home" then r.away else r.home

/-- The opponent's rows strictly before the current row's timestamp
(the table is assumed time-sorted, which the pipeline guarantees). -/
def oppHistory (rows : List ORow) (r : ORow) : List ORow :=
  rows.filter (fun x => x.team = opponentTeam r ∧ x.dt < r.dt)

/-- The loop body: `tail(5)` mean when at least 5 history rows exist,
mean of the whole history when between 1 and 4 exist, NaN otherwise. -/
def oppMA5raw (rows : List ORow) (r : ORow) : Option ℚ :=
  let h := oppHistory rows r
  if 5 ≤ h.length then meanOpt ((lastN 5 h).map ORow.conceded)
  else if 0 < h.length then meanOpt (h.map ORow.conceded)
  else none

/-- League-wide mean of the defined `sot_conceded` entries. -/
def leagueAvg (rows : List ORow) : Option ℚ :=
  meanOpt (rows.map ORow.conceded)

/-- The final `sot_conceded_MA5` entry: the loop value with missing
entries filled with the league average. -/
def oppMA5 (rows : List ORow) (r : ORow) : Option ℚ :=
  match oppMA5raw rows r with
  | some v => some v
  | none => leagueAvg rows

/-- Spec-side definition following the claim's words: the opponent's own
match history holds one entry per match (the team-level metric is shared
by all player rows of one match, keyed here by timestamp), and the
O-factor is the trailing mean of that metric over the last up-to-5
matches strictly before the row's timestamp, with the league-average
fallback when the opponent has no prior match. -/
def specOppFactor (rows : List ORow) (r : ORow) : Option ℚ :=
  let m := ((oppHistory rows r).map (fun x => (x.dt, x.conceded))).dedup
  if m.isEmpty then leagueAvg rows
  else meanOpt ((lastN 5 m).map Prod.snd)

theorem lastN_of_length_le (xs : List α) (n : ℕ) (h : xs.length ≤ n) :
    lastN n xs = xs := by
  rw [lastN, Nat.sub_eq_zero_of_le h, List.drop_zero]

/-- C2 (amended): the O-factor is a row-level, not match-level, trailing
mean: it equals the mean of `sot_conceded` over the last up-to-5 of the
opponent's player-record rows strictly before the row's timestamp
(multiple rows of one match each count separately); when the opponent has
no prior row it equals the league-wide average of the defined metric
entries, which is defined whenever any row of the table carries the
metric. -/
theorem C2_opponent_factor (rows : List ORow) (r : ORow) :
    oppMA5raw rows r
      = (if oppHistory rows r = [] then none
         else meanOpt ((lastN 5 (oppHistory rows r)).map ORow.conceded))
    ∧ (oppHistory rows r = [] → oppMA5 rows r = leagueAvg rows)
    ∧ ((rows.map ORow.conceded).filterMap id ≠ [] →
        (oppMA5 rows r).isSome) := by
  have hraw : oppMA5raw rows r
      = (if oppHistory rows r = [] then none
         else meanOpt ((lastN 5 (oppHistory rows r)).map ORow.conceded)) := by
    rw [oppMA5raw]
    by_cases h5 : 5 ≤ (oppHistory rows r).length
    · rw [if_pos h5, if_neg]
      intro h0
      rw [h0] at h5
      simp at h5
    · rw [if_neg h5]
      by_cases hpos : 0 < (oppHistory rows r).length
      · rw [if_pos hpos, if_neg (by
          intro h0
          rw [h0] at hpos
          simp at hpos)]
        rw [lastN_of_length_le _ _ (le_of_not_le h5)]
      · rw [if_neg hpos, if_pos]
        rcases List.eq_nil_or_concat (oppHistory rows r) with h0 | ⟨l, a, h0⟩
        · exact h0
        · rw [h0] at hpos
          simp at hpos
  refine ⟨hraw, ?_, ?_⟩
  · intro h0
    rw [oppMA5, hraw, if_pos h0]
  · intro hleague
    rw [oppMA5]
    rcases hcase : oppMA5raw rows r with _ | v
    · rw [leagueAvg, meanOpt]
      simp only [List.isEmpty_iff]
      rw [if_neg hleague]
      rfl
    · rfl

/-- Witness for C2's amended theorem: a row whose opponent has no prior
row gets the league average, which is defined. -/
theorem C2_opponent_factor_witness :
    oppMA5raw [⟨"A", "A", "B", "home", 1, some 4⟩]
        ⟨"A", "A", "B", "home", 1, some 4⟩
      = (if oppHistory [⟨"A", "A", "B", "home", 1, some 4⟩]
              ⟨"A", "A", "B", "home", 1, some 4⟩ = [] then none
         else meanOpt ((lastN 5 (oppHistory [⟨"A", "A", "B", "home", 1, some 4⟩]
              ⟨"A", "A", "B", "home", 1, some 4⟩)).map ORow.conceded))
    ∧ oppMA5 [⟨"A", "A", "B", "home", 1, some 4⟩] ⟨"A", "A", "B", "home", 1, some 4⟩
      = leagueAvg [⟨"A", "A", "B", "home", 1, some 4⟩]
    ∧ (oppMA5 [⟨"A", "A", "B", "home", 1, some 4⟩]
        ⟨"A", "A", "B", "home", 1, some 4⟩).isSome := by
  obtain ⟨h1, h2, h3⟩ :=
    C2_opponent_factor [⟨"A", "A", "B", "home", 1, some 4⟩]
      ⟨"A", "A", "B", "home", 1, some 4⟩
  exact ⟨h1, h2 (by decide), h3 (by decide)⟩

/-- Counterexample for C2 as stated: the opponent `B` has two prior
matches (metric 0 and 6), each contributing three player rows; the code's
`tail(5)` runs over rows, giving mean `18/5`, while the trailing mean
over up-to-5 *matches* of the opponent's history is `3`. -/
theorem C2_counterexample :
    oppMA5
        [⟨"B", "B", "X", "home", 1, some 0⟩, ⟨"B", "B", "X", "home", 1, some 0⟩,
         ⟨"B", "B", "X", "home", 1, some 0⟩, ⟨"B", "Y", "B", "away", 2, some 6⟩,
         ⟨"B", "Y", "B", "away", 2, some 6⟩, ⟨"B", "Y", "B", "away", 2, some 6⟩,
         ⟨"A", "A", "B", "home", 3, some 5⟩]
        ⟨"A", "A", "B", "home", 3, some 5⟩ = some (18/5)
    ∧ specOppFactor
        [⟨"B", "B", "X", "home", 1, some 0⟩, ⟨"B", "B", "X", "home", 1, some 0⟩,
         ⟨"B", "B", "X", "home", 1, some 0⟩, ⟨"B", "Y", "B", "away", 2, some 6⟩,
         ⟨"B", "Y", "B", "away", 2, some 6⟩, ⟨"B", "Y", "B", "away", 2, some 6⟩,
         ⟨"A", "A", "B", "home", 3, some 5⟩]
        ⟨"A", "A", "B", "home", 3, some 5⟩ = some 3
    ∧ (some (18/5) : Option ℚ) ≠ some 3 := by
  refine ⟨?_, ?_, by norm_num⟩
  · norm_num [oppMA5, oppMA5raw, oppHistory, opponentTeam, lastN, meanOpt,
      qMean, leagueAvg, List.filter, List.filterMap_cons, List.filterMap_nil]
  · norm_num [specOppFactor, oppHistory, opponentTeam, lastN, meanOpt, qMean,
      leagueAvg, List.filter, List.dedup, List.filterMap_cons,
      List.filterMap_nil]

/-! ## C3 / C4 — feature scaling

`feature_scaling.standardize_features` fits a `StandardScaler` on
`df[FEATURES_TO_SCALE].fillna(df[FEATURES_TO_SCALE].mean())`, writes the
scaled columns, reapplies NaN where the original entry was NaN, and
persists `{mean, std}` per feature to `training_stats.json`;
`backtest_model.prepare_features` then drops every row with a NaN in a
predictor or target column before fitting.  `scale_live_data` (both live
predictors) applies `(x - mu) / sigma` with the persisted statistics,
emitting 0 when `sigma == 0`.
-/

/-- pandas `Series.mean`: mean of the defined entries. -/
def defMean (col : List (Option ℚ)) : ℚ := qMean (col.filterMap id)

/-- `col.fillna(col.mean())`. -/
def fillMeanColumn (col : List (Option ℚ)) : List ℚ :=
  col.map (fun x => x.getD (defMean col))

/-- sklearn `StandardScaler.mean_` of one feature. -/
def popMean (xs : List ℚ) : ℚ := qMean xs

/-- Population variance (`ddof = 0`), sklearn `StandardScaler.var_`. -/
def popVar (xs : List ℚ) : ℚ :=
  qMean (xs.map (fun x => (x - popMean xs) ^ 2))

/-- sklearn `scale_`: the square root of the variance, an exact zero being
replaced by 1 (`_handle_zeros_in_scale`). -/
noncomputable def popStd (xs : List ℚ) : ℝ :=
  if Real.sqrt (popVar xs) = 0 then 1 else Real.sqrt (popVar xs)

/-- The persisted mean of one feature (fitted on the mean-filled column). -/
def scalerMean (col : List (Option ℚ)) : ℚ := popMean (fillMeanColumn col)

/-- The persisted std of one feature (fitted on the mean-filled column). -/
noncomputable def scalerStd (col : List (Option ℚ)) : ℝ :=
  popStd (fillMeanColumn col)

/-- The transformed (scaled) values of the mean-filled column. -/
noncomputable def scaledFilled (col : List (Option ℚ)) : List ℝ :=
  (fillMeanColumn col).map
    (fun q : ℚ => ((q : ℝ) - (scalerMean col : ℝ)) / scalerStd col)

/-- `standardize_features` on one feature column: transform the
mean-filled column, then reapply NaN where the original entry was NaN. -/
noncomputable def standardizeColumn (col : List (Option ℚ)) : List (Option ℝ) :=
  (col.zip (scaledFilled col)).map
    (fun p => if p.1.isSome then some p.2 else none)

/-- `backtest_model.prepare_features` / the live `dropna`: keep only rows
whose relevant entries are all defined. -/
def prepareFeaturesRows (t : List (List (Option ℚ))) : List (List (Option ℚ)) :=
  t.filter (fun row => row.all Option.isSome)

/-- One entry of `scale_live_data`'s transform (both live predictors):
`(x - mu) / sigma if sigma != 0 else 0`. -/
noncomputable def liveScaleValue (mu : ℚ) (sigma : ℝ) (x : ℚ) : ℝ :=
  if sigma = 0 then 0 else ((x : ℝ) - (mu : ℝ)) / sigma

theorem fillSum (μ : ℚ) (col : List (Option ℚ)) :
    (col.map (fun x => x.getD μ)).sum
      = (col.filterMap id).sum
        + ((col.length : ℚ) - (col.filterMap id).length) * μ := by
  induction col with
  | nil => simp
  | cons a t ih =>
    cases a with
    | none =>
      simp only [List.map_cons, List.sum_cons, List.filterMap_cons, ih,
        List.length_cons, Option.getD_none, id_eq]
      push_cast
      ring
    | some v =>
      simp only [List.map_cons, List.sum_cons, List.filterMap_cons, ih,
        List.length_cons, Option.getD_some, id_eq]
      push_cast
      ring

theorem scalerMean_eq_defMean (col : List (Option ℚ)) :
    scalerMean col = defMean col := by
  rw [scalerMean, popMean, qMean, fillMeanColumn, List.length_map,
    fillSum (defMean col) col]
  rcases Nat.eq_zero_or_pos (col.filterMap id).length with hm | hm
  · have h0 : col.filterMap id = [] := List.length_eq_zero.mp hm
    rw [defMean, qMean, h0]
    simp
  · have hmn : (col.filterMap id).length ≤ col.length :=
      List.length_filterMap_le _ _
    have hn : 0 < col.length := lt_of_lt_of_le hm hmn
    have hm' : ((col.filterMap id).length : ℚ) ≠ 0 :=
      (Nat.cast_pos.mpr hm).ne'
    have hn' : ((col.length : ℚ)) ≠ 0 := (Nat.cast_pos.mpr hn).ne'
    rw [defMean, qMean]
    field_simp
    ring

theorem zip_get?_eq {α β : Type} :
    ∀ (l₁ : List α) (l₂ : List β) (i : ℕ) (a : α) (b : β),
      l₁.get? i = some a → l₂.get? i = some b →
      (l₁.zip l₂).get? i = some (a, b)
  | [], _, i, _, _, h₁, _ => by simp at h₁
  | _ :: _, [], i, _, _, _, h₂ => by simp at h₂
  | x :: xs, y :: ys, 0, a, b, h₁, h₂ => by
    simp only [List.get?] at h₁ h₂
    simp [List.zip_cons_cons, Option.some.injEq] at *
    exact ⟨h₁, h₂⟩
  | x :: xs, y :: ys, i + 1, a, b, h₁, h₂ => by
    simp only [List.get?] at h₁ h₂
    simpa [List.zip_cons_cons] using zip_get?_eq xs ys i a b h₁ h₂

theorem standardizeColumn_get? (col : List (Option ℚ)) (i : ℕ)
    (o : Option ℚ) (h : col.get? i = some o) :
    (standardizeColumn col).get? i
      = some (match o with
              | none => none
              | some x =>
                some (((x : ℝ) - (scalerMean col : ℝ)) / scalerStd col)) := by
  have hfill : (fillMeanColumn col).get? i = some (o.getD (defMean col)) := by
    rw [fillMeanColumn, List.get?_map, h]
    rfl
  have hscaled : (scaledFilled col).get? i
      = some ((((o.getD (defMean col) : ℚ) : ℝ) - (scalerMean col : ℝ))
          / scalerStd col) := by
    rw [scaledFilled, List.get?_map, hfill]
    rfl
  have hzip := zip_get?_eq col (scaledFilled col) i o _ h hscaled
  rw [standardizeColumn, List.get?_map, hzip]
  cases o with
  | none => rfl
  | some x => rfl

theorem popStd_ne_zero (xs : List ℚ) : popStd xs ≠ 0 := by
  rw [popStd]
  by_cases h : Real.sqrt (popVar xs) = 0
  · rw [if_pos h]
    norm_num
  · rw [if_neg h]
    exact h

/-- C3 (amended): a row whose factor is undefined keeps an undefined entry
in the scaled feature column, and every row used to fit or score the
model (`dropna`) has all its entries defined; the undefined entries are
however replaced by the column mean while the scaler itself is fitted, so
the persisted statistics are computed over the mean-imputed column (the
persisted mean still equals the mean of the defined entries alone, the
persisted std does not — see the counterexample). -/
theorem C3_undefined_excluded
    (col : List (Option ℚ)) (i : ℕ)
    (t : List (List (Option ℚ))) (row : List (Option ℚ)) :
    (col.get? i = some none → (standardizeColumn col).get? i = some none)
    ∧ (row ∈ prepareFeaturesRows t → row ∈ t ∧ ∀ x ∈ row, x.isSome)
    ∧ scalerMean col = defMean col := by
  refine ⟨?_, ?_, scalerMean_eq_defMean col⟩
  · intro h
    exact standardizeColumn_get? col i none h
  · intro hmem
    rw [prepareFeaturesRows] at hmem
    have := List.mem_filter.mp hmem
    refine ⟨this.1, ?_⟩
    intro x hx
    have hall := this.2
    rw [List.all_eq_true] at hall
    simpa using hall x hx

/-- Witness for C3's amended theorem at a concrete column and table. -/
theorem C3_undefined_excluded_witness :
    (([some 0, some 4, none] : List (Option ℚ)).get? 2 = some none)
    ∧ (standardizeColumn [some 0, some 4, none]).get? 2 = some none
    ∧ ([some (1 : ℚ)] ∈ prepareFeaturesRows [[some 1], [none]])
    ∧ ([some (1 : ℚ)] ∈ [[some 1], [none]] ∧ ∀ x ∈ [some (1 : ℚ)], x.isSome)
    ∧ scalerMean [some 0, some 4, none] = defMean [some 0, some 4, none] := by
  obtain ⟨h1, h2, h3⟩ :=
    C3_undefined_excluded [some 0, some 4, none] 2 [[some 1], [none]] [some 1]
  exact ⟨by decide, h1 (by decide), by decide, h2 (by decide), h3⟩

/-- C3 counterexample: the claim forbids replacing an undefined factor by
a population mean at any stage, including while computing the scaling
statistics.  On the column `[some 0, some 4, none]` the code fits the
scaler on the mean-imputed column `[0, 4, 2]`: the persisted std is
`sqrt (8/3)`, not the defined-population std `2`, so the undefined entry
was mean-imputed during fitting and even changes the persisted profile. -/
theorem C3_counterexample :
    fillMeanColumn [some 0, some 4, none] = [0, 4, 2]
    ∧ scalerStd [some 0, some 4, none] = Real.sqrt (8 / 3)
    ∧ scalerStd [some 0, some 4] = 2
    ∧ scalerStd [some 0, some 4, none] ≠ scalerStd [some 0, some 4] := by
  have hfill : fillMeanColumn [some 0, some 4, none] = [0, 4, 2] := by
    norm_num [fillMeanColumn, defMean, qMean, List.filterMap_cons,
      List.filterMap_nil]
  have hfill2 : fillMeanColumn [some 0, some 4] = [0, 4] := by
    norm_num [fillMeanColumn, defMean, qMean, List.filterMap_cons,
      List.filterMap_nil]
  have hvar1 : popVar [0, 4, 2] = 8 / 3 := by
    norm_num [popVar, popMean, qMean]
  have hvar2 : popVar [0, 4] = 4 := by
    norm_num [popVar, popMean, qMean]
  have hc : (((8 : ℚ) / 3 : ℚ) : ℝ) = (8 : ℝ) / 3 := by
    push_cast
    ring
  have hstd1 : scalerStd [some 0, some 4, none] = Real.sqrt (8 / 3) := by
    rw [scalerStd, hfill, popStd, hvar1, hc]
    rw [if_neg (fun h0 => by rw [Real.sqrt_eq_zero'] at h0; norm_num at h0)]
  have hstd2 : scalerStd [some 0, some 4] = 2 := by
    rw [scalerStd, hfill2, popStd, hvar2]
    have h4 : Real.sqrt ((4 : ℚ) : ℝ) = 2 := by
      rw [show (((4 : ℚ) : ℝ)) = 2 ^ 2 by norm_num, Real.sqrt_sq]
      norm_num
    rw [h4]
    norm_num
  refine ⟨hfill, hstd1, hstd2, ?_⟩
  rw [hstd1, hstd2]
  intro heq
  have hsq := congrArg (fun y : ℝ => y ^ 2) heq
  simp only at hsq
  rw [Real.sq_sqrt (by norm_num : (0 : ℝ) ≤ 8 / 3)] at hsq
  norm_num at hsq

/-- C4: for every training row with a defined raw feature value, the
standardized value written to the scaled column (the value `dropna` keeps
and the model is fitted on) is exactly `(x - mean) / std` with the
persisted statistics; the persisted std is never 0; and the
live-inference transform of `scale_live_data` applied to the same raw
value with the same persisted statistics reproduces exactly that value,
recomputing nothing from live data. -/
theorem C4_scaling_round_trip
    (col : List (Option ℚ)) (i : ℕ) (x : ℚ)
    (hx : col.get? i = some (some x)) :
    (standardizeColumn col).get? i
      = some (some (((x : ℝ) - (scalerMean col : ℝ)) / scalerStd col))
    ∧ scalerStd col ≠ 0
    ∧ liveScaleValue (scalerMean col) (scalerStd col) x
      = ((x : ℝ) - (scalerMean col : ℝ)) / scalerStd col := by
  have hstd : scalerStd col ≠ 0 := popStd_ne_zero _
  refine ⟨standardizeColumn_get? col i (some x) hx, hstd, ?_⟩
  rw [liveScaleValue, if_neg hstd]

/-- Witness for C4 at the concrete column `[some 0, some 4]`, row 0. -/
theorem C4_scaling_round_trip_witness :
    (([some 0, some 4] : List (Option ℚ)).get? 0 = some (some 0))
    ∧ (standardizeColumn [some 0, some 4]).get? 0
      = some (some ((((0 : ℚ) : ℝ) - (scalerMean [some 0, some 4] : ℝ))
          / scalerStd [some 0, some 4]))
    ∧ scalerStd [some 0, some 4] ≠ 0
    ∧ liveScaleValue (scalerMean [some 0, some 4])
        (scalerStd [some 0, some 4]) 0
      = (((0 : ℚ) : ℝ) - (scalerMean [some 0, some 4] : ℝ))
          / scalerStd [some 0, some 4] := by
  obtain ⟨h1, h2, h3⟩ := C4_scaling_round_trip [some 0, some 4] 0 0 (by decide)
  exact ⟨by decide, h1, h2, h3⟩

/-! ## C5 / C8 — `live_predictor_zip.scale_live_data`

The live feature table is scaled feature-by-feature with the persisted
statistics: for every stem in `feature_stems_to_scale`, a stem absent
from the scaler profile is skipped with a warning, otherwise the column
`{stem}_scaled` is assigned `(df[stem] - mu) / sigma` when `sigma != 0`
and the scalar 0 when `sigma == 0` (the raw column is only read in the
first branch — a missing raw column raises `KeyError` there); the raw
binary/minute features are then read back (raising `KeyError` when
absent), the predictor list is checked for missing columns (raising
`ValueError`), and the final frame is the predictor columns in their
fixed order with a constant column prepended by `sm.add_constant`.
-/

/-- A data frame: a row count and a named-column store. -/
structure DF where
  n : ℕ
  col : String → Option (List ℚ)

/-- Column assignment `df[name] = xs`. -/
def setCol (t : DF) (name : String) (xs : List ℚ) : DF :=
  ⟨t.n, fun c => if c = name then some xs else t.col c⟩

/-- Lookup in the persisted scaler statistics (`scaler_data.loc[...]`):
feature name to `(mean, std)`. -/
def scalerLookup (sd : List (String × ℚ × ℚ)) (name : String) :
    Option (ℚ × ℚ) :=
  (sd.find? (fun c => c.1 = name)).map Prod.snd

/-- `PREDICTOR_COLUMNS` of `live_predictor_zip` (v4.2, 7 features). -/
def PREDICTOR_COLUMNS : List String :=
  ["sot_conceded_MA5_scaled", "sot_MA5_scaled", "npxg_MA5_scaled",
   "summary_min", "is_forward", "is_defender", "is_home"]

/-- The raw (unscaled) features copied through unchanged. -/
def RAW_PREDICTORS : List String :=
  ["summary_min", "is_forward", "is_defender", "is_home"]

/-- `feature_stems_to_scale`: the scaled predictors with the `_scaled`
suffix stripped (the list comprehension's value). -/
def featureStemsToScale : List String :=
  ["sot_conceded_MA5", "sot_MA5", "npxg_MA5"]

/-- The scaling loop of `scale_live_data`. -/
def scaleStems (sd : List (String × ℚ × ℚ)) :
    List String → DF → Except String DF
  | [], t => .ok t
  | stem :: rest, t =>
    match scalerLookup sd stem with
    | none => scaleStems sd rest t
    | some (mu, sigma) =>
      if sigma = 0 then
        scaleStems sd rest
          (setCol t (stem ++ "_scaled") (List.replicate t.n 0))
      else
        match t.col stem with
        | none => .error ("KeyError: " ++ stem)
        | some xs =>
          scaleStems sd rest
            (setCol t (stem ++ "_scaled")
              (xs.map (fun x => (x - mu) / sigma)))

/-- The raw-feature copies `df[c] = df[c]` (a `KeyError` when absent). -/
def copyRawFeatures : List String → DF → Except String DF
  | [], t => .ok t
  | c :: rest, t =>
    match t.col c with
    | none => .error ("KeyError: " ++ c)
    | some xs => copyRawFeatures rest (setCol t c xs)

/-- `df_features[PREDICTOR_COLUMNS]` then `sm.add_constant`. -/
def selectWithConstant (t : DF) (sel : List String) :
    List (String × List ℚ) :=
  ("const", List.replicate t.n 1) :: sel.map (fun c => (c, (t.col c).getD []))

/-- `scale_live_data` of `live_predictor_zip`. -/
def scale_live_data (sd : List (String × ℚ × ℚ)) (t : DF) :
    Except String (List (String × List ℚ)) := do
  let t1 ← scaleStems sd featureStemsToScale t
  let t2 ← copyRawFeatures RAW_PREDICTORS t1
  if (PREDICTOR_COLUMNS.filter (fun c => (t2.col c).isNone)).isEmpty then
    pure (selectWithConstant t2 PREDICTOR_COLUMNS)
  else
    .error "ValueError: Missing features"

/-- Column lookup in the final feature frame. -/
def frameCol (out : List (String × List ℚ)) (name : String) :
    Option (List ℚ) :=
  (out.find? (fun c => c.1 = name)).map Prod.snd

theorem setCol_col_self (t : DF) (name : String) (xs : List ℚ) :
    (setCol t name xs).col name = some xs := by
  simp [setCol]

theorem setCol_col_other (t : DF) (name c : String) (xs : List ℚ)
    (h : c ≠ name) : (setCol t name xs).col c = t.col c := by
  simp [setCol, h]

theorem setCol_n (t : DF) (name : String) (xs : List ℚ) :
    (setCol t name xs).n = t.n := rfl

/-- `scaleStems` leaves untouched every column that is not the `_scaled`
target of a stem present in the scaler profile, and the row count. -/
theorem scaleStems_preserves (sd : List (String × ℚ × ℚ)) :
    ∀ (stems : List String) (t t' : DF),
      scaleStems sd stems t = .ok t' →
      ∀ name,
        (∀ s ∈ stems, name ≠ s ++ "_scaled" ∨ scalerLookup sd s = none) →
        t'.col name = t.col name ∧ t'.n = t.n
  | [], t, t', hok, name, _ => by
    cases hok
    exact ⟨rfl, rfl⟩
  | stem :: rest, t, t', hok, name, hskip => by
    rw [scaleStems] at hok
    rcases hlook : scalerLookup sd stem with _ | ⟨mu, sigma⟩ <;>
      rw [hlook] at hok <;> dsimp only at hok
    · exact scaleStems_preserves sd rest t t' hok name
        (fun s hs => hskip s (List.mem_cons_of_mem _ hs))
    · have hname : name ≠ stem ++ "_scaled" := by
        rcases hskip stem (List.mem_cons_self _ _) with h | h
        · exact h
        · rw [hlook] at h
          exact absurd h (by simp)
      by_cases hσ : sigma = 0
      · rw [if_pos hσ] at hok
        have := scaleStems_preserves sd rest _ t' hok name
          (fun s hs => hskip s (List.mem_cons_of_mem _ hs))
        rw [setCol_col_other _ _ _ _ hname] at this
        exact this
      · rw [if_neg hσ] at hok
        rcases hcol : t.col stem with _ | xs <;> rw [hcol] at hok
        · exact absurd hok (by simp)
        · have := scaleStems_preserves sd rest _ t' hok name
            (fun s hs => hskip s (List.mem_cons_of_mem _ hs))
          rw [setCol_col_other _ _ _ _ hname] at this
          exact this

/-- The scaling loop's contract for one stem present in the profile:
with `sigma = 0` the emitted column is identically 0 and the raw column
is not read; with `sigma ≠ 0` the raw column must exist and the emitted
column is the affine transform of it. -/
theorem scaleStems_spec (sd : List (String × ℚ × ℚ)) :
    ∀ (stems : List String) (t t' : DF) (stem : String) (mu sigma : ℚ),
      scaleStems sd stems t = .ok t' →
      stem ∈ stems →
      scalerLookup sd stem = some (mu, sigma) →
      (stems.map (fun s => s ++ "_scaled")).Nodup →
      (∀ s ∈ stems, stem ≠ s ++ "_scaled") →
      (sigma = 0 → t'.col (stem ++ "_scaled") = some (List.replicate t.n 0))
      ∧ (sigma ≠ 0 → ∃ xs, t.col stem = some xs
          ∧ t'.col (stem ++ "_scaled")
            = some (xs.map (fun x => (x - mu) / sigma)))
  | [], t, t', stem, mu, sigma, hok, hstem, _, _, _ => absurd hstem (by simp)
  | s :: rest, t, t', stem, mu, sigma, hok, hstem, hlook, hnodup, hraw => by
    rw [scaleStems] at hok
    rw [List.map_cons, List.nodup_cons] at hnodup
    rcases List.mem_cons.mp hstem with heq | hmem
    · subst heq
      rw [hlook] at hok
      dsimp only at hok
      by_cases hσ : sigma = 0
      · rw [if_pos hσ] at hok
        have hpres := scaleStems_preserves sd rest _ t' hok
          (stem ++ "_scaled")
          (fun s' hs' => Or.inl (fun hc =>
            hnodup.1 (hc ▸ List.mem_map_of_mem (fun x => x ++ "_scaled") hs')))
        rw [setCol_col_self, setCol_n] at hpres
        exact ⟨fun _ => hpres.1, fun hne => absurd hσ hne⟩
      · rw [if_neg hσ] at hok
        rcases hcol : t.col stem with _ | xs <;> rw [hcol] at hok
        · exact absurd hok (by simp)
        · have hpres := scaleStems_preserves sd rest _ t' hok
            (stem ++ "_scaled")
            (fun s' hs' => Or.inl (fun hc =>
              hnodup.1 (hc ▸ List.mem_map_of_mem (fun x => x ++ "_scaled") hs')))
          rw [setCol_col_self, setCol_n] at hpres
          exact ⟨fun h0 => absurd h0 hσ, fun _ => ⟨xs, rfl, hpres.1⟩⟩
    · have hrest : ∀ s' ∈ rest, stem ≠ s' ++ "_scaled" := fun s' hs' =>
        hraw s' (List.mem_cons_of_mem _ hs')
      have hstemne : stem ≠ s ++ "_scaled" := hraw s (List.mem_cons_self _ _)
      rcases hlooks : scalerLookup sd s with _ | ⟨mus, sigmas⟩ <;>
        rw [hlooks] at hok <;> dsimp only at hok
      · exact scaleStems_spec sd rest t t' stem mu sigma hok hmem hlook
          hnodup.2 hrest
      · by_cases hσs : sigmas = 0
        · rw [if_pos hσs] at hok
          have hih := scaleStems_spec sd rest _ t' stem mu sigma hok hmem
            hlook hnodup.2 hrest
          rw [setCol_col_other _ _ _ _ hstemne, setCol_n] at hih
          exact hih
        · rw [if_neg hσs] at hok
          rcases hcol : t.col s with _ | xs <;> rw [hcol] at hok
          · exact absurd hok (by simp)
          · have hih := scaleStems_spec sd rest _ t' stem mu sigma hok hmem
              hlook hnodup.2 hrest
            rw [setCol_col_other _ _ _ _ hstemne, setCol_n] at hih
            exact hih

/-- The raw-feature copies succeed only when every raw column exists, and
change nothing (each column is assigned its own value). -/
theorem copyRawFeatures_spec :
    ∀ (raws : List String) (t t' : DF),
      copyRawFeatures raws t = .ok t' →
      (∀ name, t'.col name = t.col name) ∧ t'.n = t.n
        ∧ ∀ c ∈ raws, t.col c ≠ none
  | [], t, t', hok => by
    cases hok
    exact ⟨fun _ => rfl, rfl, by simp⟩
  | c :: rest, t, t', hok => by
    rw [copyRawFeatures] at hok
    rcases hcol : t.col c with _ | xs <;> rw [hcol] at hok <;>
      dsimp only at hok
    · exact absurd hok (by simp)
    · have hih := copyRawFeatures_spec rest _ t' hok
      have hset : ∀ name, (setCol t c xs).col name = t.col name := by
        intro name
        by_cases hn : name = c
        · subst hn
          rw [setCol_col_self, hcol]
        · rw [setCol_col_other _ _ _ _ hn]
      refine ⟨fun name => (hih.1 name).trans (hset name), hih.2.1, ?_⟩
      intro c' hc'
      rcases List.mem_cons.mp hc' with he | hm
      · subst he
        rw [hcol]
        simp
      · have hne := hih.2.2 c' hm
        rw [hset c'] at hne
        exact hne

instance : DecidableEq (Except String (List (String × List ℚ))) := fun a b =>
  match a, b with
  | .ok x, .ok y => decidable_of_iff (x = y) (by simp)
  | .error x, .error y => decidable_of_iff (x = y) (by simp)
  | .ok _, .error _ => isFalse (by simp)
  | .error _, .ok _ => isFalse (by simp)

theorem find?_map_pair (f : String → List ℚ) :
    ∀ (l : List String) (name : String),
      (l.map (fun c => (c, f c))).find? (fun p => p.1 = name)
        = (l.find? (fun c => c = name)).map (fun c => (c, f c))
  | [], _ => rfl
  | c :: rest, name => by
    by_cases hc : c = name
    · simp [List.find?_cons, hc]
    · simp [List.find?_cons, hc, find?_map_pair f rest name]

theorem find?_eq_of_mem :
    ∀ (l : List String) (name : String), name ∈ l →
      l.find? (fun c => c = name) = some name
  | [], _, h => absurd h (by simp)
  | c :: rest, name, h => by
    by_cases hc : c = name
    · subst hc
      simp [List.find?_cons]
    · have hmem : name ∈ rest := by
        rcases List.mem_cons.mp h with h' | h'
        · exact absurd h'.symm hc
        · exact h'
      simp [List.find?_cons, hc, find?_eq_of_mem rest name hmem]

/-- Splitting `scale_live_data`'s monadic pipeline on a success. -/
theorem scale_live_data_ok_elim (sd : List (String × ℚ × ℚ)) (t : DF)
    (out : List (String × List ℚ))
    (hok : scale_live_data sd t = .ok out) :
    ∃ t1 t2, scaleStems sd featureStemsToScale t = .ok t1
      ∧ copyRawFeatures RAW_PREDICTORS t1 = .ok t2
      ∧ (PREDICTOR_COLUMNS.filter (fun c => (t2.col c).isNone)).isEmpty
      ∧ out = selectWithConstant t2 PREDICTOR_COLUMNS := by
  rw [scale_live_data] at hok
  rcases h1 : scaleStems sd featureStemsToScale t with e | t1 <;>
    rw [h1] at hok <;> simp only [Bind.bind, Except.bind] at hok
  · exact absurd hok (by simp)
  · rcases h2 : copyRawFeatures RAW_PREDICTORS t1 with e | t2 <;>
      rw [h2] at hok <;> dsimp only at hok
    · exact absurd hok (by simp)
    · by_cases hchk :
          (PREDICTOR_COLUMNS.filter (fun c => (t2.col c).isNone)).isEmpty
      · rw [if_pos hchk] at hok
        simp only [pure, Except.pure, Except.ok.injEq] at hok
        exact ⟨t1, t2, rfl, h2, hchk, hok.symm⟩
      · rw [if_neg hchk] at hok
        exact absurd hok (by simp)

/-- C5: with a well-formed persisted profile (no zero stds, as training
produces) and a live table that carries no pre-scaled columns, the live
scaling step yields, on success, exactly the model's feature list in its
fixed order with the constant prepended — nothing is reordered or
backfilled — and it aborts with an error before any scoring whenever a
required raw feature or a scaled feature's raw stem is absent from the
live table. -/
theorem C5_schema_mismatch (sd : List (String × ℚ × ℚ)) (t : DF)
    (hσ : ∀ e ∈ sd, e.2.2 ≠ (0 : ℚ))
    (hpre : ∀ stem ∈ featureStemsToScale, t.col (stem ++ "_scaled") = none) :
    (∀ out, scale_live_data sd t = .ok out →
      out.map Prod.fst = "const" :: PREDICTOR_COLUMNS)
    ∧ (((∃ c ∈ RAW_PREDICTORS, t.col c = none)
        ∨ ∃ stem ∈ featureStemsToScale, t.col stem = none) →
      ∃ e, scale_live_data sd t = .error e) := by
  constructor
  · intro out hok
    obtain ⟨t1, t2, h1, h2, hchk, hout⟩ := scale_live_data_ok_elim sd t out hok
    rw [hout, selectWithConstant]
    simp only [List.map_cons, List.map_map]
    have hid : (Prod.fst ∘ fun c : String => (c, (t2.col c).getD ([] : List ℚ)))
        = id := by
      funext c
      rfl
    rw [hid, List.map_id]
  · intro hmiss
    rcases hres : scale_live_data sd t with e | out
    · exact ⟨e, rfl⟩
    exfalso
    obtain ⟨t1, t2, h1, h2, hchk, _⟩ := scale_live_data_ok_elim sd t out hres
    have hcopy := copyRawFeatures_spec RAW_PREDICTORS t1 t2 h2
    rcases hmiss with ⟨c, hc, hcnone⟩ | ⟨stem, hstem, hstemnone⟩
    · -- a raw feature column is absent: the self-copy raises KeyError
      have hskip : ∀ s ∈ featureStemsToScale,
          c ≠ s ++ "_scaled" ∨ scalerLookup sd s = none := by
        have : ∀ c' ∈ RAW_PREDICTORS, ∀ s ∈ featureStemsToScale,
            c' ≠ s ++ "_scaled" := by decide
        exact fun s hs => Or.inl (this c hc s hs)
      have hp := scaleStems_preserves sd featureStemsToScale t t1 h1 c hskip
      have := hcopy.2.2 c hc
      rw [hp.1, hcnone] at this
      exact this rfl
    · rcases hlook : scalerLookup sd stem with _ | ⟨mu, sigma⟩
      · -- stem absent from the profile: its scaled column is never
        -- created, so the final schema check fails
        have hdist : ∀ s1 ∈ featureStemsToScale, ∀ s2 ∈ featureStemsToScale,
            s1 ++ "_scaled" = s2 ++ "_scaled" → s1 = s2 := by decide
        have hskip : ∀ s ∈ featureStemsToScale,
            stem ++ "_scaled" ≠ s ++ "_scaled" ∨ scalerLookup sd s = none := by
          intro s hs
          by_cases hse : s = stem
          · subst hse
            exact Or.inr hlook
          · exact Or.inl (fun hc => hse (hdist s hs stem hstem hc.symm))
        have hp := scaleStems_preserves sd featureStemsToScale t t1 h1
          (stem ++ "_scaled") hskip
        have ht2 : t2.col (stem ++ "_scaled") = none := by
          rw [hcopy.1, hp.1, hpre stem hstem]
        have hmemP : stem ++ "_scaled" ∈ PREDICTOR_COLUMNS := by
          have : ∀ s ∈ featureStemsToScale,
              s ++ "_scaled" ∈ PREDICTOR_COLUMNS := by decide
          exact this stem hstem
        rw [List.isEmpty_iff, List.filter_eq_nil_iff] at hchk
        have := hchk _ hmemP
        rw [ht2] at this
        simp at this
      · -- stem in the profile with a nonzero std: the transform reads
        -- the raw column, so scaleStems would have raised KeyError
        have hσs : sigma ≠ 0 := by
          rcases hfind : sd.find? (fun c => c.1 = stem) with _ | entry
          · rw [scalerLookup, hfind] at hlook
            simp at hlook
          · rw [scalerLookup, hfind] at hlook
            simp at hlook
            have hin : entry ∈ sd := List.mem_of_find?_eq_some hfind
            have hne := hσ entry hin
            rw [hlook] at hne
            exact hne
        have hrawS : ∀ s ∈ featureStemsToScale, ∀ s' ∈ featureStemsToScale,
            s ≠ s' ++ "_scaled" := by decide
        have hnodupS :
            (featureStemsToScale.map (fun s => s ++ "_scaled")).Nodup := by
          decide
        obtain ⟨-, hspec⟩ := scaleStems_spec sd featureStemsToScale t t1
          stem mu sigma h1 hstem hlook hnodupS (hrawS stem hstem)
        obtain ⟨xs, hxs, -⟩ := hspec hσs
        rw [hstemnone] at hxs
        exact Option.noConfusion hxs

/-- Witness for C5: a profile with unit stds and a live table missing the
raw `sot_MA5` column; the scaling step returns an error. -/
theorem C5_schema_mismatch_witness :
    (∀ out, scale_live_data
        [("sot_conceded_MA5", (0 : ℚ), (1 : ℚ)), ("sot_MA5", 0, 1),
         ("npxg_MA5", 0, 1)]
        ⟨1, fun c => if c ∈ ["sot_conceded_MA5", "npxg_MA5", "summary_min",
            "is_forward", "is_defender", "is_home"] then some [0] else none⟩
        = .ok out → out.map Prod.fst = "const" :: PREDICTOR_COLUMNS)
    ∧ ∃ e, scale_live_data
        [("sot_conceded_MA5", (0 : ℚ), (1 : ℚ)), ("sot_MA5", 0, 1),
         ("npxg_MA5", 0, 1)]
        ⟨1, fun c => if c ∈ ["sot_conceded_MA5", "npxg_MA5", "summary_min",
            "is_forward", "is_defender", "is_home"] then some [0] else none⟩
        = .error e := by
  obtain ⟨h1, h2⟩ := C5_schema_mismatch
    [("sot_conceded_MA5", (0 : ℚ), (1 : ℚ)), ("sot_MA5", 0, 1),
     ("npxg_MA5", 0, 1)]
    ⟨1, fun c => if c ∈ ["sot_conceded_MA5", "npxg_MA5", "summary_min",
        "is_forward", "is_defender", "is_home"] then some [0] else none⟩
    (by decide) (by decide)
  exact ⟨h1, h2 (Or.inr ⟨"sot_MA5", by decide, by decide⟩)⟩

/-- C8: for every feature of the persisted profile that the live scaler
standardizes, a zero persisted std makes the emitted scaled column
identically 0 without the division (or the raw column) ever being
touched, and a nonzero persisted std makes it exactly
`(x - mean) / std` entrywise — the step is total and never divides by
zero. -/
theorem C8_zero_std_guard (sd : List (String × ℚ × ℚ)) (t : DF)
    (out : List (String × List ℚ)) (stem : String) (mu sigma : ℚ)
    (hok : scale_live_data sd t = .ok out)
    (hstem : stem ∈ featureStemsToScale)
    (hlook : scalerLookup sd stem = some (mu, sigma)) :
    (sigma = 0 →
      frameCol out (stem ++ "_scaled") = some (List.replicate t.n 0))
    ∧ (sigma ≠ 0 → ∃ xs, t.col stem = some xs
        ∧ frameCol out (stem ++ "_scaled")
          = some (xs.map (fun x => (x - mu) / sigma))) := by
  obtain ⟨t1, t2, h1, h2, hchk, hout⟩ := scale_live_data_ok_elim sd t out hok
  have hrawS : ∀ s ∈ featureStemsToScale, ∀ s' ∈ featureStemsToScale,
      s ≠ s' ++ "_scaled" := by decide
  have hnodupS :
      (featureStemsToScale.map (fun s => s ++ "_scaled")).Nodup := by decide
  obtain ⟨hzero, hnonzero⟩ := scaleStems_spec sd featureStemsToScale t t1
    stem mu sigma h1 hstem hlook hnodupS (hrawS stem hstem)
  have hcopy := copyRawFeatures_spec RAW_PREDICTORS t1 t2 h2
  have hmemP : stem ++ "_scaled" ∈ PREDICTOR_COLUMNS := by
    have : ∀ s ∈ featureStemsToScale,
        s ++ "_scaled" ∈ PREDICTOR_COLUMNS := by decide
    exact this stem hstem
  have hconst : stem ++ "_scaled" ≠ "const" := by
    have : ∀ s ∈ featureStemsToScale, s ++ "_scaled" ≠ "const" := by decide
    exact this stem hstem
  have hframe : frameCol out (stem ++ "_scaled")
      = some ((t2.col (stem ++ "_scaled")).getD []) := by
    rw [hout, frameCol, selectWithConstant]
    rw [List.find?_cons_of_neg _ (by simpa using fun h => hconst h.symm)]
    rw [find?_map_pair (fun c => (t2.col c).getD []) PREDICTOR_COLUMNS
        (stem ++ "_scaled"),
      find?_eq_of_mem PREDICTOR_COLUMNS (stem ++ "_scaled") hmemP]
    rfl
  constructor
  · intro hσ
    rw [hframe, hcopy.1, hzero hσ]
    rfl
  · intro hσ
    obtain ⟨xs, hxs, hval⟩ := hnonzero hσ
    refine ⟨xs, hxs, ?_⟩
    rw [hframe, hcopy.1, hval]
    rfl

/-- Witness for C8: a profile whose stds are all zero; the emitted scaled
column for `npxg_MA5` is identically 0 and the pipeline succeeds. -/
theorem C8_zero_std_guard_witness :
    scale_live_data
        [("sot_conceded_MA5", (0 : ℚ), (0 : ℚ)), ("sot_MA5", 0, 0),
         ("npxg_MA5", 0, 0)]
        ⟨1, fun c => if c ∈ ["sot_conceded_MA5", "sot_MA5", "npxg_MA5",
            "summary_min", "is_forward", "is_defender", "is_home"]
          then some [2] else none⟩
      = .ok
        [("const", [1]), ("sot_conceded_MA5_scaled", [0]),
         ("sot_MA5_scaled", [0]), ("npxg_MA5_scaled", [0]),
         ("summary_min", [2]), ("is_forward", [2]), ("is_defender", [2]),
         ("is_home", [2])]
    ∧ frameCol
        [("const", [1]), ("sot_conceded_MA5_scaled", [0]),
         ("sot_MA5_scaled", [0]), ("npxg_MA5_scaled", [0]),
         ("summary_min", [2]), ("is_forward", [2]), ("is_defender", [2]),
         ("is_home", [2])] ("npxg_MA5" ++ "_scaled") = some [0] := by
  have h := C8_zero_std_guard
    [("sot_conceded_MA5", (0 : ℚ), (0 : ℚ)), ("sot_MA5", 0, 0),
     ("npxg_MA5", 0, 0)]
    ⟨1, fun c => if c ∈ ["sot_conceded_MA5", "sot_MA5", "npxg_MA5",
        "summary_min", "is_forward", "is_defender", "is_home"]
      then some [2] else none⟩
    [("const", [1]), ("sot_conceded_MA5_scaled", [0]),
     ("sot_MA5_scaled", [0]), ("npxg_MA5_scaled", [0]),
     ("summary_min", [2]), ("is_forward", [2]), ("is_defender", [2]),
     ("is_home", [2])]
    "npxg_MA5" 0 0 (by decide) (by decide) (by decide)
  exact ⟨by decide, h.1 rfl⟩

/-! ## C6 — ZIP probability reporting (`live_predictor_zip.run_predictions`)

For the ZIP model the code computes
`prob_zero = model.predict(X, which='prob', exog_infl=...)`.
statsmodels' `which='prob'` returns, for each of the `n` scored rows, the
whole vector of probabilities `P(Y = k)` for `k = 0 .. K` (counts up to
the maximum seen in training) — an `n × (K+1)` matrix.  The code then
flattens it (`np.asarray(...).ravel()`), truncates it to its first `n`
entries when it is longer than `n`, and reports `P_SOT_1_Plus = 1 - p`
entrywise from the truncated vector.
-/

/-- `P(Y = 0)` of a zero-inflated Poisson observation:
`pi + (1 - pi) * exp(-lam)`. -/
noncomputable def zipP0 (pi lam : ℝ) : ℝ := pi + (1 - pi) * Real.exp (-lam)

/-- `P(Y = k)` of a zero-inflated Poisson observation. -/
noncomputable def zipPmf (pi lam : ℝ) (k : ℕ) : ℝ :=
  if k = 0 then zipP0 pi lam
  else (1 - pi) * (lam ^ k / (Nat.factorial k : ℝ)) * Real.exp (-lam)

/-- statsmodels `predict(which='prob')`: one probability row per scored
observation `(pi, lam)`, over counts `0 .. K`. -/
noncomputable def probMatrix (rows : List (ℝ × ℝ)) (K : ℕ) : List (List ℝ) :=
  rows.map (fun r => (List.range (K + 1)).map (zipPmf r.1 r.2))

/-- `np.asarray(m).ravel()` followed by the `[:n]` truncation applied
when the flattened array is longer than the frame. -/
def ravelTruncate (m : List (List ℝ)) (n : ℕ) : List ℝ :=
  let r := m.flatten
  if n < r.length then r.take n else r

/-- The per-row "zero probability" vector the code assigns. -/
noncomputable def reportedProbZero (rows : List (ℝ × ℝ)) (K : ℕ) : List ℝ :=
  ravelTruncate (probMatrix rows K) rows.length

/-- The reported `P_SOT_1_Plus` column: `1 - p` entrywise. -/
noncomputable def reportedP1Plus (rows : List (ℝ × ℝ)) (K : ℕ) : List ℝ :=
  (reportedProbZero rows K).map (fun p => 1 - p)

/-- C6: the reported zero probability does not equal the model's own
`P(count = 0)`.  With two identical scored rows `(pi, lam) = (1/2, log 2)`
and counts enumerated up to `K = 1`, the flatten-then-truncate step hands
row 1 the value `P(row 0 = 1) = log 2 / 4` as its "zero probability",
while the model's own `P(count = 0) = pi + (1 - pi) exp(-lam) = 3/4`; the
reported `P(count >= 1)` for row 1 is accordingly `1 - log 2 / 4`, not
`1 - 3/4`.  (Row 0 alone gets the intended value.) -/
theorem C6_zip_prob_zero_bug :
    (reportedProbZero [(1/2, Real.log 2), (1/2, Real.log 2)] 1).get? 1
      = some (Real.log 2 / 4)
    ∧ (reportedP1Plus [(1/2, Real.log 2), (1/2, Real.log 2)] 1).get? 1
      = some (1 - Real.log 2 / 4)
    ∧ zipP0 (1/2) (Real.log 2) = 3/4
    ∧ Real.log 2 / 4 ≠ 3/4 := by
  have hexp : Real.exp (-Real.log 2) = 1/2 := by
    rw [Real.exp_neg, Real.exp_log (by norm_num : (0:ℝ) < 2)]
    norm_num
  have hp0 : zipP0 (1/2) (Real.log 2) = 3/4 := by
    rw [zipP0, hexp]
    norm_num
  have hp1 : zipPmf (1/2) (Real.log 2) 1 = Real.log 2 / 4 := by
    rw [zipPmf, if_neg (by norm_num), hexp]
    simp [Nat.factorial]
    ring
  have hrange : List.range 2 = [0, 1] := by decide
  have hmat : probMatrix [(1/2, Real.log 2), (1/2, Real.log 2)] 1
      = [[zipP0 (1/2) (Real.log 2), zipPmf (1/2) (Real.log 2) 1],
         [zipP0 (1/2) (Real.log 2), zipPmf (1/2) (Real.log 2) 1]] := by
    rw [probMatrix]
    simp only [List.map_cons, List.map_nil, hrange]
    rw [zipPmf]
    simp
  have hzero : reportedProbZero [(1/2, Real.log 2), (1/2, Real.log 2)] 1
      = [zipP0 (1/2) (Real.log 2), zipPmf (1/2) (Real.log 2) 1] := by
    rw [reportedProbZero, ravelTruncate, hmat]
    simp
  refine ⟨?_, ?_, hp0, ?_⟩
  · rw [hzero, hp1]
    rfl
  · rw [reportedP1Plus, hzero, hp1]
    rfl
  · intro heq
    have hlt := Real.log_two_lt_d9
    rw [div_eq_div_iff (by norm_num) (by norm_num)] at heq
    norm_num at heq
    linarith

/-! ## C7 — malformed / unrecognized position codes

`player_factor_engineer.process_position_data` maps the extracted primary
position code through `position_mapping` and fills unmapped results with
`'Midfielder'` (logging counts); `live_predictor_zip.clean_and_enrich_data`
does the same via `.map(POSITION_MAPPING).fillna('Midfielder')`, then
removes only Goalkeeper rows and builds the `is_forward`/`is_defender`
dummies.
-/

/-- The `POSITION_MAPPING` dictionary shared by both scripts. -/
def POSITION_MAPPING : List (String × String) :=
  [("GK", "Goalkeeper"),
   ("DF", "Defender"), ("CB", "Defender"), ("LB", "Defender"),
   ("RB", "Defender"), ("WB", "Defender"),
   ("MF", "Midfielder"), ("CM", "Midfielder"), ("DM", "Midfielder"),
   ("AM", "Midfielder"), ("LM", "Midfielder"), ("RM", "Midfielder"),
   ("FW", "Forward"), ("LW", "Forward"), ("RW", "Forward")]

/-- `.map(POSITION_MAPPING).fillna('Midfielder')` on one extracted code
(`none` = NaN / failed extraction). -/
def positionGroup (code : Option String) : String :=
  (code.bind
    (fun c => (POSITION_MAPPING.find? (fun p => p.1 = c)).map Prod.snd)
  ).getD "Midfielder"

/-- A row as the live predictor's position step sees it. -/
structure PosRow where
  pid : ℕ
  code : Option String
deriving DecidableEq

/-- A row after `clean_and_enrich_data`. -/
structure EnrichedRow where
  pid : ℕ
  code : Option String
  group : String
  is_forward : Bool
  is_defender : Bool
deriving DecidableEq

/-- `clean_and_enrich_data`'s position steps: assign the default-filled
group, remove Goalkeeper rows, create the dummies. -/
def clean_and_enrich (rows : List PosRow) : List EnrichedRow :=
  (rows.map (fun r =>
    ({ pid := r.pid, code := r.code, group := positionGroup r.code,
       is_forward := positionGroup r.code = "Forward",
       is_defender := positionGroup r.code = "Defender" } : EnrichedRow))
  ).filter (fun r => ¬ r.group = "Goalkeeper")

/-- A row as `process_position_data`'s hybrid filter sees it. -/
structure FRow where
  pid : ℕ
  code : Option String
  avg_sot : ℚ
deriving DecidableEq

/-- The hybrid retention rule of `process_position_data`: keep Forwards
and Midfielders, and Defenders whose long-run average meets the
attacking-defender threshold 0.3. -/
def hybridKeep (r : FRow) : Bool :=
  (positionGroup r.code = "Forward" || positionGroup r.code = "Midfielder")
  || (positionGroup r.code = "Defender" && (3/10 : ℚ) ≤ r.avg_sot)

/-- `process_position_data`'s row filter. -/
def process_position_rows (rows : List FRow) : List FRow :=
  rows.filter hybridKeep

theorem positionGroup_unknown (code : Option String)
    (hunk : ∀ p ∈ POSITION_MAPPING, code ≠ some p.1) :
    positionGroup code = "Midfielder" := by
  cases code with
  | none => rfl
  | some c =>
    have hfind : POSITION_MAPPING.find? (fun p => p.1 = c) = none := by
      rw [List.find?_eq_none]
      intro p hp
      simp only [decide_eq_true_eq]
      intro hpc
      exact hunk p hp (by rw [hpc])
    have hred : positionGroup (some c)
        = (Option.map Prod.snd
            (POSITION_MAPPING.find? (fun p => p.1 = c))).getD "Midfielder" :=
      rfl
    rw [hred, hfind]
    rfl

/-- C7 (amended): a row whose extracted position code is missing or not a
recognized code is not dropped — it receives the default group
'Midfielder' (counts of such rows are logged by the factor engineer),
gets `is_forward = is_defender = 0`, survives the Goalkeeper removal of
the live predictor and the hybrid position filter of the factor engineer,
and continues into feature engineering and prediction. -/
theorem C7_unknown_position_defaults
    (rows : List PosRow) (r : PosRow) (hr : r ∈ rows)
    (hunk : ∀ p ∈ POSITION_MAPPING, r.code ≠ some p.1) :
    positionGroup r.code = "Midfielder"
    ∧ (⟨r.pid, r.code, "Midfielder", false, false⟩ : EnrichedRow)
        ∈ clean_and_enrich rows
    ∧ ∀ (frows : List FRow) (fr : FRow), fr ∈ frows → fr.code = r.code →
        fr ∈ process_position_rows frows := by
  have hmid := positionGroup_unknown r.code hunk
  refine ⟨hmid, ?_, ?_⟩
  · rw [clean_and_enrich]
    apply List.mem_filter.mpr
    constructor
    · apply List.mem_map.mpr
      refine ⟨r, hr, ?_⟩
      rw [hmid]
      simp
    · simp
  · intro frows fr hfr hcode
    rw [process_position_rows]
    apply List.mem_filter.mpr
    refine ⟨hfr, ?_⟩
    rw [hybridKeep, hcode, hmid]
    simp

/-- Witness for C7's amended theorem at the malformed code `"XX"`. -/
theorem C7_unknown_position_defaults_witness :
    positionGroup (some "XX") = "Midfielder"
    ∧ (⟨7, some "XX", "Midfielder", false, false⟩ : EnrichedRow)
        ∈ clean_and_enrich [⟨7, some "XX"⟩]
    ∧ (⟨7, some "XX", 0⟩ : FRow)
        ∈ process_position_rows [⟨7, some "XX", 0⟩] := by
  obtain ⟨h1, h2, h3⟩ := C7_unknown_position_defaults
    [⟨7, some "XX"⟩] ⟨7, some "XX"⟩ (by decide) (by decide)
  exact ⟨h1, h2, h3 [⟨7, some "XX", 0⟩] ⟨7, some "XX", 0⟩ (by decide) rfl⟩

/-- C7 counterexample: the claim says such rows are dropped from the
pipeline; instead the row with the unrecognized code `"XX"` is retained
by both scripts with the silently defaulted group 'Midfielder'. -/
theorem C7_counterexample :
    clean_and_enrich [⟨7, some "XX"⟩]
      = [⟨7, some "XX", "Midfielder", false, false⟩]
    ∧ process_position_rows [⟨7, some "XX", 0⟩] = [⟨7, some "XX", 0⟩] := by
  refine ⟨by decide, by decide⟩

/-! ## C9 — paginated fetch with deduplication
(`utils/supabase_utils.fetch_with_deduplication`)

The loop requests ranges `[offset, offset + 999]` with `offset` advancing
by `limit = 1000`, deduplicates each page's records by their `id` field
against the set of already-seen ids (records without an id are always
appended), and stops when a page is empty, shorter than the limit, or
contributed no new record.  The backend is modelled as the list of page
responses the successive range requests would return (an exhausted
backend returns the empty page). -/

/-- A fetched record: optional `id` field plus a payload. -/
structure SRec where
  rid : Option ℕ
  payload : ℕ
deriving DecidableEq

/-- The page size `limit = 1000`. -/
def FETCH_LIMIT : ℕ := 1000

/-- The per-page dedup loop: threads `(all_data, seen_ids, new_records)`. -/
def dedupRecords : List SRec → List SRec → List ℕ → ℕ →
    List SRec × List ℕ × ℕ
  | [], acc, seen, n => (acc, seen, n)
  | r :: rest, acc, seen, n =>
    match r.rid with
    | none => dedupRecords rest (acc ++ [r]) seen (n + 1)
    | some i =>
      if i ∈ seen then dedupRecords rest acc seen n
      else dedupRecords rest (acc ++ [r]) (seen ++ [i]) (n + 1)

/-- The pagination loop over the successive page responses. -/
def fetchLoop : List (List SRec) → List SRec → List ℕ → List SRec
  | [], acc, _ => acc
  | page :: rest, acc, seen =>
    if page.isEmpty then acc
    else
      let d := dedupRecords page acc seen 0
      if page.length < FETCH_LIMIT ∨ d.2.2 = 0 then d.1
      else fetchLoop rest d.1 d.2.1

/-- `fetch_with_deduplication`: run the loop from an empty accumulator. -/
def fetch_with_deduplication (pages : List (List SRec)) : List SRec :=
  fetchLoop pages [] []

theorem dedupRecords_n_le :
    ∀ (page acc : List SRec) (seen : List ℕ) (n : ℕ),
      n ≤ (dedupRecords page acc seen n).2.2
  | [], _, _, _ => le_refl _
  | r :: rest, acc, seen, n => by
    rw [dedupRecords]
    rcases hr : r.rid with _ | i
    · exact le_trans (Nat.le_succ n) (dedupRecords_n_le rest _ seen (n + 1))
    · dsimp only
      by_cases hi : i ∈ seen
      · rw [if_pos hi]
        exact dedupRecords_n_le rest acc seen n
      · rw [if_neg hi]
        exact le_trans (Nat.le_succ n)
          (dedupRecords_n_le rest _ _ (n + 1))

/-- Full contract of the per-page dedup loop, assuming the `seen` set
tracks exactly the accumulated identifiers. -/
theorem dedupRecords_spec :
    ∀ (page acc : List SRec) (seen : List ℕ) (n : ℕ),
      (∀ i, i ∈ seen ↔ i ∈ acc.filterMap SRec.rid) →
      (acc.filterMap SRec.rid).Nodup →
      (∀ i, i ∈ (dedupRecords page acc seen n).2.1
          ↔ i ∈ seen ∨ i ∈ page.filterMap SRec.rid)
      ∧ (∀ i, i ∈ ((dedupRecords page acc seen n).1).filterMap SRec.rid
          ↔ i ∈ acc.filterMap SRec.rid ∨ i ∈ page.filterMap SRec.rid)
      ∧ (((dedupRecords page acc seen n).1).filterMap SRec.rid).Nodup
      ∧ (∀ i, i ∈ (dedupRecords page acc seen n).2.1
          ↔ i ∈ ((dedupRecords page acc seen n).1).filterMap SRec.rid)
      ∧ ((dedupRecords page acc seen n).2.2 = n
          ↔ ∀ r ∈ page, ∃ j, r.rid = some j ∧ j ∈ seen)
  | [], acc, seen, n, hinv, hnodup => by
    rw [dedupRecords]
    exact ⟨fun i => by simp [hinv i], fun i => by simp, hnodup,
      fun i => hinv i, by simp⟩
  | r :: rest, acc, seen, n, hinv, hnodup => by
    rw [dedupRecords]
    rcases hr : r.rid with _ | i
    · dsimp only
      have hids : (acc ++ [r]).filterMap SRec.rid = acc.filterMap SRec.rid := by
        rw [List.filterMap_append]
        simp [hr]
      have hih := dedupRecords_spec rest (acc ++ [r]) seen (n + 1)
        (fun i => by rw [hids]; exact hinv i) (by rw [hids]; exact hnodup)
      refine ⟨fun i => ?_, fun i => ?_, hih.2.2.1, hih.2.2.2.1, ?_⟩
      · rw [hih.1 i]
        simp [hr]
      · rw [hih.2.1 i, hids]
        simp [hr]
      · constructor
        · intro hn
          exact absurd hn (by
            have := dedupRecords_n_le rest (acc ++ [r]) seen (n + 1)
            omega)
        · intro hall
          obtain ⟨j, hj, -⟩ := hall r (List.mem_cons_self _ _)
          rw [hr] at hj
          exact Option.noConfusion hj
    · dsimp only
      by_cases hi : i ∈ seen
      · rw [if_pos hi]
        have hih := dedupRecords_spec rest acc seen n hinv hnodup
        refine ⟨fun x => ?_, fun x => ?_, hih.2.2.1, hih.2.2.2.1, ?_⟩
        · rw [hih.1 x]
          simp only [List.filterMap_cons, hr]
          constructor
          · rintro (h | h)
            · exact Or.inl h
            · exact Or.inr (List.mem_cons_of_mem _ h)
          · rintro (h | h)
            · exact Or.inl h
            · rcases List.mem_cons.mp h with he | hm
              · subst he
                exact Or.inl hi
              · exact Or.inr hm
        · rw [hih.2.1 x]
          simp only [List.filterMap_cons, hr]
          constructor
          · rintro (h | h)
            · exact Or.inl h
            · exact Or.inr (List.mem_cons_of_mem _ h)
          · rintro (h | h)
            · exact Or.inl h
            · rcases List.mem_cons.mp h with he | hm
              · subst he
                exact Or.inl ((hinv x).mp hi)
              · exact Or.inr hm
        · rw [hih.2.2.2.2]
          constructor
          · intro hall r' hr'
            rcases List.mem_cons.mp hr' with he | hm
            · subst he
              exact ⟨i, hr, hi⟩
            · exact hall r' hm
          · intro hall r' hr'
            exact hall r' (List.mem_cons_of_mem _ hr')
      · rw [if_neg hi]
        have hids : (acc ++ [r]).filterMap SRec.rid
            = acc.filterMap SRec.rid ++ [i] := by
          rw [List.filterMap_append]
          simp [hr]
        have hinv' : ∀ x, x ∈ seen ++ [i]
            ↔ x ∈ (acc ++ [r]).filterMap SRec.rid := by
          intro x
          rw [hids]
          simp [hinv x]
        have hnodup' : ((acc ++ [r]).filterMap SRec.rid).Nodup := by
          rw [hids, List.nodup_append]
          refine ⟨hnodup, List.nodup_singleton i, ?_⟩
          intro x hx hx1
          rw [List.mem_singleton] at hx1
          subst hx1
          exact hi ((hinv x).mpr hx)
        have hih := dedupRecords_spec rest (acc ++ [r]) (seen ++ [i]) (n + 1)
          hinv' hnodup'
        refine ⟨fun x => ?_, fun x => ?_, hih.2.2.1, hih.2.2.2.1, ?_⟩
        · rw [hih.1 x]
          simp only [List.filterMap_cons, hr, List.mem_append,
            List.mem_singleton, List.mem_cons]
          tauto
        · rw [hih.2.1 x, hids]
          simp only [List.filterMap_cons, hr, List.mem_append,
            List.mem_singleton, List.mem_cons]
          tauto
        · constructor
          · intro hn
            exact absurd hn (by
              have := dedupRecords_n_le rest (acc ++ [r]) (seen ++ [i]) (n + 1)
              omega)
          · intro hall
            obtain ⟨j, hj, hjs⟩ := hall r (List.mem_cons_self _ _)
            rw [hr] at hj
            rw [Option.some.injEq] at hj
            subst hj
            exact absurd hjs hi

/-- The fetch never returns two rows with the same identifier. -/
theorem fetchLoop_nodup :
    ∀ (pages : List (List SRec)) (acc : List SRec) (seen : List ℕ),
      (∀ i, i ∈ seen ↔ i ∈ acc.filterMap SRec.rid) →
      (acc.filterMap SRec.rid).Nodup →
      ((fetchLoop pages acc seen).filterMap SRec.rid).Nodup
  | [], acc, seen, _, hnodup => hnodup
  | page :: rest, acc, seen, hinv, hnodup => by
    rw [fetchLoop]
    by_cases hemp : page.isEmpty
    · rw [if_pos hemp]
      exact hnodup
    · rw [if_neg hemp]
      have hspec := dedupRecords_spec page acc seen 0 hinv hnodup
      by_cases hbreak : page.length < FETCH_LIMIT
          ∨ (dedupRecords page acc seen 0).2.2 = 0
      · rw [if_pos hbreak]
        exact hspec.2.2.1
      · rw [if_neg hbreak]
        exact fetchLoop_nodup rest _ _ hspec.2.2.2.1 hspec.2.2.1

/-- Completeness of the fetch: when every page before the last is full
and contributes at least one record that is fresh (no id, or an id absent
from `seen` and from every earlier page), the identifiers of the fetched
table are exactly those of the concatenated page stream. -/
theorem fetchLoop_complete :
    ∀ (pages : List (List SRec)) (acc : List SRec) (seen : List ℕ),
      (∀ i, i ∈ seen ↔ i ∈ acc.filterMap SRec.rid) →
      (acc.filterMap SRec.rid).Nodup →
      (∀ k, k + 1 < pages.length → (pages.getD k []).length = FETCH_LIMIT) →
      (∀ k, k < pages.length → pages.getD k [] ≠ [] →
        ∃ r ∈ pages.getD k [], ∀ i, r.rid = some i →
          i ∉ seen ∧ ∀ k', k' < k → i ∉ (pages.getD k' []).filterMap SRec.rid) →
      ∀ x, x ∈ (fetchLoop pages acc seen).filterMap SRec.rid
        ↔ x ∈ acc.filterMap SRec.rid ∨ x ∈ (pages.flatten).filterMap SRec.rid
  | [], acc, seen, _, _, _, _, x => by
    rw [fetchLoop]
    simp
  | page :: rest, acc, seen, hinv, hnodup, hfull, hfresh, x => by
    rw [fetchLoop]
    have hspec := dedupRecords_spec page acc seen 0 hinv hnodup
    by_cases hemp : page.isEmpty
    · rw [if_pos hemp]
      rw [List.isEmpty_iff] at hemp
      cases rest with
      | nil =>
        simp [hemp]
      | cons p2 r2 =>
        exfalso
        have hlen := hfull 0 (by simp)
        rw [List.getD_cons_zero, hemp] at hlen
        rw [FETCH_LIMIT] at hlen
        simp at hlen
    · rw [if_neg hemp]
      rw [List.isEmpty_iff] at hemp
      by_cases hbreak : page.length < FETCH_LIMIT
          ∨ (dedupRecords page acc seen 0).2.2 = 0
      · rw [if_pos hbreak]
        cases rest with
        | nil =>
          rw [List.flatten_cons, List.flatten_nil, List.append_nil]
          exact hspec.2.1 x
        | cons p2 r2 =>
          exfalso
          rcases hbreak with hlen | hzero
          · have := hfull 0 (by simp)
            rw [List.getD_cons_zero] at this
            omega
          · rw [hspec.2.2.2.2] at hzero
            obtain ⟨r, hrmem, hrfresh⟩ := hfresh 0 (by simp)
              (by rw [List.getD_cons_zero]; exact hemp)
            rw [List.getD_cons_zero] at hrmem
            obtain ⟨j, hj, hjseen⟩ := hzero r hrmem
            exact ((hrfresh j hj).1) hjseen
      · rw [if_neg hbreak]
        have hfull' : ∀ k, k + 1 < rest.length →
            (rest.getD k []).length = FETCH_LIMIT := by
          intro k hk
          have := hfull (k + 1) (by simpa using Nat.succ_lt_succ hk)
          rwa [List.getD_cons_succ] at this
        have hfresh' : ∀ k, k < rest.length → rest.getD k [] ≠ [] →
            ∃ r ∈ rest.getD k [], ∀ i, r.rid = some i →
              i ∉ (dedupRecords page acc seen 0).2.1
              ∧ ∀ k', k' < k → i ∉ (rest.getD k' []).filterMap SRec.rid := by
          intro k hk hne
          obtain ⟨r, hrmem, hfr⟩ := hfresh (k + 1)
            (by simpa using Nat.succ_lt_succ hk)
            (by rwa [List.getD_cons_succ])
          rw [List.getD_cons_succ] at hrmem
          refine ⟨r, hrmem, fun i hi => ?_⟩
          obtain ⟨hnseen, hnearlier⟩ := hfr i hi
          constructor
          · intro hmem
            rcases (hspec.1 i).mp hmem with h | h
            · exact hnseen h
            · exact (hnearlier 0 (Nat.succ_pos k))
                (by rwa [List.getD_cons_zero])
          · intro k' hk'
            have := hnearlier (k' + 1) (Nat.succ_lt_succ hk')
            rwa [List.getD_cons_succ] at this
        rw [fetchLoop_complete rest _ _ hspec.2.2.2.1 hspec.2.2.1
          hfull' hfresh' x]
        rw [hspec.2.1 x]
        rw [List.flatten_cons, List.filterMap_append, List.mem_append]
        tauto

/-- C9 (amended): the paginated fetch returns at most one row per record
identifier; and provided every page before the last is full (`limit`
rows) and every nonempty page contributes at least one fresh record (one
with no id, or with an id not occurring on any earlier page), the set of
identified records fetched equals that of the whole page stream — the
same set a fetch of the same data without overlapping pages returns.  (A
full page consisting solely of already-seen records stops the fetch and
drops all later pages: see the counterexample.) -/
theorem C9_fetch_idempotent (pages : List (List SRec))
    (hfull : ∀ k, k + 1 < pages.length →
      (pages.getD k []).length = FETCH_LIMIT)
    (hfresh : ∀ k, k < pages.length → pages.getD k [] ≠ [] →
      ∃ r ∈ pages.getD k [], ∀ i, r.rid = some i →
        ∀ k', k' < k → i ∉ (pages.getD k' []).filterMap SRec.rid) :
    ((fetch_with_deduplication pages).filterMap SRec.rid).Nodup
    ∧ ∀ x, x ∈ (fetch_with_deduplication pages).filterMap SRec.rid
        ↔ x ∈ (pages.flatten).filterMap SRec.rid := by
  constructor
  · exact fetchLoop_nodup pages [] [] (by simp) (by simp)
  · intro x
    have hcompl := fetchLoop_complete pages [] [] (by simp) (by simp) hfull
      (fun k hk hne => by
        obtain ⟨r, hrmem, hfr⟩ := hfresh k hk hne
        exact ⟨r, hrmem, fun i hi => ⟨by simp, hfr i hi⟩⟩) x
    simpa using hcompl

/-- Witness for C9's amended theorem: a single page that itself repeats
an identifier; the fetch keeps one row per identifier and misses none. -/
theorem C9_fetch_idempotent_witness :
    ((fetch_with_deduplication [[⟨some 0, 0⟩, ⟨some 0, 1⟩]]).filterMap
        SRec.rid).Nodup
    ∧ ∀ x, x ∈ (fetch_with_deduplication
          [[⟨some 0, 0⟩, ⟨some 0, 1⟩]]).filterMap SRec.rid
        ↔ x ∈ ([[⟨some 0, 0⟩, ⟨some 0, 1⟩]] : List (List SRec)).flatten.filterMap
            SRec.rid := by
  apply C9_fetch_idempotent
  · intro k hk
    simp at hk
  · intro k hk hne
    have hk0 : k = 0 := by
      simp at hk
      omega
    subst hk0
    exact ⟨⟨some 0, 0⟩, by decide, fun i hi k' hk' => absurd hk' (by omega)⟩

theorem dedupRecords_all_new :
    ∀ (page acc : List SRec) (seen : List ℕ) (n : ℕ),
      (page.filterMap SRec.rid).Nodup →
      (∀ r ∈ page, ∃ i, r.rid = some i ∧ i ∉ seen) →
      dedupRecords page acc seen n
        = (acc ++ page, seen ++ page.filterMap SRec.rid, n + page.length)
  | [], acc, seen, n => by
    intro _ _
    simp [dedupRecords]
  | r :: rest, acc, seen, n => by
    intro hnodup hnew
    obtain ⟨i, hi, hins⟩ := hnew r (List.mem_cons_self _ _)
    rw [dedupRecords, hi]
    dsimp only
    rw [if_neg hins]
    rw [List.filterMap_cons, hi] at hnodup ⊢
    rw [List.nodup_cons] at hnodup
    have hih := dedupRecords_all_new rest (acc ++ [r]) (seen ++ [i]) (n + 1)
      hnodup.2
      (fun r' hr' => by
        obtain ⟨i', hi', hins'⟩ := hnew r' (List.mem_cons_of_mem _ hr')
        refine ⟨i', hi', ?_⟩
        rw [List.mem_append, List.mem_singleton]
        rintro (h | h)
        · exact hins' h
        · subst h
          exact hnodup.1 (List.mem_filterMap.mpr ⟨r', hr', hi'⟩))
    rw [hih]
    simp only [Prod.mk.injEq]
    refine ⟨by simp, by simp, by simp; omega⟩

theorem dedupRecords_all_dup :
    ∀ (page acc : List SRec) (seen : List ℕ) (n : ℕ),
      (∀ r ∈ page, ∃ i, r.rid = some i ∧ i ∈ seen) →
      dedupRecords page acc seen n = (acc, seen, n)
  | [], _, _, _, _ => rfl
  | r :: rest, acc, seen, n, hdup => by
    obtain ⟨i, hi, hins⟩ := hdup r (List.mem_cons_self _ _)
    rw [dedupRecords, hi]
    dsimp only
    rw [if_pos hins]
    exact dedupRecords_all_dup rest acc seen n
      (fun r' hr' => hdup r' (List.mem_cons_of_mem _ hr'))

/-- The page a full backend range request returns: 1000 records with
distinct identifiers `0 .. 999`. -/
def fullPage : List SRec :=
  (List.range FETCH_LIMIT).map (fun k => ⟨some k, k⟩)

/-- One extra record, on the page after `fullPage`. -/
def extraRec : SRec := ⟨some FETCH_LIMIT, FETCH_LIMIT⟩

theorem fullPage_ids : fullPage.filterMap SRec.rid = List.range FETCH_LIMIT := by
  rw [fullPage, List.filterMap_map]
  have : (SRec.rid ∘ fun k : ℕ => (⟨some k, k⟩ : SRec)) = some := rfl
  rw [this, List.filterMap_some]

theorem fullPage_length : fullPage.length = FETCH_LIMIT := by
  rw [fullPage, List.length_map, List.length_range]

theorem fullPage_not_empty : ¬ fullPage.isEmpty = true := by
  rw [List.isEmpty_iff, fullPage, List.map_eq_nil_iff, List.range_eq_nil,
    FETCH_LIMIT]
  norm_num

theorem fullPage_all_new (acc : List SRec) (n : ℕ) :
    dedupRecords fullPage acc [] n
      = (acc ++ fullPage, List.range FETCH_LIMIT, n + FETCH_LIMIT) := by
  have h := dedupRecords_all_new fullPage acc [] n
    (by rw [fullPage_ids]; exact List.nodup_range _)
    (fun r hr => by
      rw [fullPage] at hr
      obtain ⟨k, -, hk⟩ := List.mem_map.mp hr
      exact ⟨k, by rw [← hk], by simp⟩)
  rw [h, fullPage_ids, fullPage_length, List.nil_append]

theorem fullPage_all_dup (acc : List SRec) (n : ℕ) :
    dedupRecords fullPage acc (List.range FETCH_LIMIT) n
      = (acc, List.range FETCH_LIMIT, n) := by
  apply dedupRecords_all_dup
  intro r hr
  rw [fullPage] at hr
  obtain ⟨k, hkr, hk⟩ := List.mem_map.mp hr
  exact ⟨k, by rw [← hk], hkr⟩

theorem fetch_overlap_eval :
    fetch_with_deduplication [fullPage, fullPage, [extraRec]] = fullPage := by
  rw [fetch_with_deduplication, fetchLoop, if_neg fullPage_not_empty,
    fullPage_all_new [] 0]
  dsimp only
  rw [if_neg (by
    rw [fullPage_length]
    simp [FETCH_LIMIT])]
  rw [List.nil_append, fetchLoop, if_neg fullPage_not_empty,
    fullPage_all_dup fullPage 0]
  dsimp only
  rw [if_pos (Or.inr rfl)]

theorem fetch_no_overlap_eval :
    fetch_with_deduplication [fullPage, [extraRec]]
      = fullPage ++ [extraRec] := by
  rw [fetch_with_deduplication, fetchLoop, if_neg fullPage_not_empty,
    fullPage_all_new [] 0]
  dsimp only
  rw [if_neg (by
    rw [fullPage_length]
    simp [FETCH_LIMIT])]
  rw [List.nil_append, fetchLoop]
  rw [if_neg (by simp)]
  have hnew := dedupRecords_all_new [extraRec] fullPage
    (List.range FETCH_LIMIT) 0
    (by simp [extraRec])
    (fun r hr => by
      rw [List.mem_singleton] at hr
      subst hr
      exact ⟨FETCH_LIMIT, rfl, by simp⟩)
  rw [hnew]
  dsimp only
  rw [if_pos (Or.inl (by simp [FETCH_LIMIT]))]

/-- C9 counterexample: the overlapping stream repeats the full first page
before delivering a new record on the third page; the repeated page
contributes nothing new, the fetch stops, and the record with identifier
1000 is lost — while the non-overlapping fetch of the same identified
records returns it.  So deduplication alone does not make the fetch
idempotent under arbitrary page overlap. -/
theorem C9_counterexample :
    fetch_with_deduplication [fullPage, fullPage, [extraRec]] = fullPage
    ∧ fetch_with_deduplication [fullPage, [extraRec]]
        = fullPage ++ [extraRec]
    ∧ (∀ x, x ∈ ([fullPage, fullPage, [extraRec]] :
            List (List SRec)).flatten.filterMap SRec.rid
        ↔ x ∈ ([fullPage, [extraRec]] :
            List (List SRec)).flatten.filterMap SRec.rid)
    ∧ (1000 : ℕ) ∈ (fetch_with_deduplication
        [fullPage, [extraRec]]).filterMap SRec.rid
    ∧ (1000 : ℕ) ∉ (fetch_with_deduplication
        [fullPage, fullPage, [extraRec]]).filterMap SRec.rid := by
  refine ⟨fetch_overlap_eval, fetch_no_overlap_eval, ?_, ?_, ?_⟩
  · intro x
    simp only [List.flatten_cons, List.flatten_nil, List.append_nil,
      List.filterMap_append, List.mem_append]
    tauto
  · rw [fetch_no_overlap_eval, List.filterMap_append]
    rw [List.mem_append]
    right
    rw [show [extraRec].filterMap SRec.rid = [1000] from rfl]
    exact List.mem_singleton.mpr rfl
  · rw [fetch_overlap_eval, fullPage_ids]
    rw [List.mem_range, FETCH_LIMIT]
    omega

/-! ## C10 — empty qualified set
(`live_predictor.get_live_gameweek_features` / `main`)

`main` loads artifacts and data, computes the factors, and filters for
the next gameweek; when no player row survives the qualification filters
it writes `gameweek_sot_recommendations.csv` containing only the full
header row (`empty_cols`) and returns normally — scaling and scoring are
never reached. -/

/-- One processed row as the live filters see it. -/
structure LRow where
  player : ℕ
  status : String
  is_future : Bool
  matchweek : Option ℚ
  sot_MA5 : Option ℚ
  min_MA5 : Option ℚ
  sot_conceded_MA5 : Option ℚ
  tackles_att_3rd_MA5 : Option ℚ
deriving DecidableEq

/-- The scheduled/future row test of the live predictor. -/
def isScheduled (r : LRow) : Bool :=
  (["scheduled", "fixture", "upcoming", "not started"].contains r.status)
  || r.is_future

/-- pandas `Series.min` over the matchweeks: minimum of the defined
entries, NaN when none is defined. -/
def minMatchweek (rows : List LRow) : Option ℚ :=
  (rows.filterMap LRow.matchweek).foldr
    (fun x acc =>
      match acc with
      | none => some x
      | some y => some (min x y)) none

/-- `MIN_EXPECTED_MINUTES = 15.0`. -/
def MIN_EXPECTED_MINUTES : ℚ := 15

/-- `MIN_SOT_MA5 = 0.1`. -/
def MIN_SOT_MA5 : ℚ := 1 / 10

/-- `get_live_gameweek_features`: restrict to scheduled rows of the next
gameweek, drop rows with incomplete MA5 data, then apply the minutes and
shots filters (a NaN comparison is `False` in pandas, hence `getD 0`
after the dropna). -/
def get_live_gameweek_features (rows : List LRow) : List LRow :=
  let sched := rows.filter isScheduled
  if sched.isEmpty then []
  else
    let ngw := minMatchweek sched
    let live := sched.filter (fun r =>
      match r.matchweek, ngw with
      | some a, some b => a = b
      | _, _ => false)
    let live1 := live.filter (fun r =>
      r.sot_MA5.isSome && r.min_MA5.isSome && r.sot_conceded_MA5.isSome
        && r.tackles_att_3rd_MA5.isSome)
    if live1.isEmpty then []
    else
      let live2 := live1.filter (fun r =>
        MIN_EXPECTED_MINUTES ≤ r.min_MA5.getD 0)
      if live2.isEmpty then []
      else
        let live3 := live2.filter (fun r => MIN_SOT_MA5 ≤ r.sot_MA5.getD 0)
        live3

/-- The `empty_cols` header written when no player qualifies. -/
def emptyReportColumns : List String :=
  ["player_id", "player_name", "team", "opponent", "E_SOT", "P_SOT_1_Plus",
   "expected_minutes", "recent_sot_avg", "match_datetime"]

/-- A CSV file: header plus data rows. -/
structure Csv where
  header : List String
  rows : List (List String)
deriving DecidableEq

instance : DecidableEq (Except String Csv) := fun a b =>
  match a, b with
  | .ok x, .ok y => decidable_of_iff (x = y) (by simp)
  | .error x, .error y => decidable_of_iff (x = y) (by simp)
  | .ok _, .error _ => isFalse (by simp)
  | .error _, .ok _ => isFalse (by simp)

/-- `main` from the qualification step onward: with no qualified row it
writes the header-only report and returns; otherwise it hands the rows to
the scaling/scoring continuation. -/
def liveMainFrom (processed : List LRow)
    (score : List LRow → Except String Csv) : Except String Csv :=
  let live := get_live_gameweek_features processed
  if live.isEmpty then .ok ⟨emptyReportColumns, []⟩
  else score live

/-- C10: whenever the qualification filters leave no player row, the live
prediction service writes the prediction report as an empty table with
exactly the full header row and terminates normally — the result is a
success regardless of what the downstream scaling/scoring step would have
done, because that step is never invoked. -/
theorem C10_empty_report (processed : List LRow)
    (score : List LRow → Except String Csv)
    (hempty : get_live_gameweek_features processed = []) :
    liveMainFrom processed score = .ok ⟨emptyReportColumns, []⟩ := by
  rw [liveMainFrom, hempty]
  rfl

/-- Witness for C10: a scheduled row that fails the expected-minutes
filter leaves the qualified set empty; the report is header-only and the
run succeeds even though the downstream continuation would fail. -/
theorem C10_empty_report_witness :
    get_live_gameweek_features
        [⟨1, "scheduled", true, some 7, some 2, some 5, some 3, some 4⟩] = []
    ∧ liveMainFrom
        [⟨1, "scheduled", true, some 7, some 2, some 5, some 3, some 4⟩]
        (fun _ => .error "downstream never runs")
      = .ok ⟨emptyReportColumns, []⟩ :=
  ⟨by decide,
    C10_empty_report
      [⟨1, "scheduled", true, some 7, some 2, some 5, some 3, some 4⟩]
      (fun _ => .error "downstream never runs") (by decide)⟩
